import Mathlib

/-!
# Verification of the RAG ingestion-and-retrieval pipeline

Shallow embedding of the core logic of the repository (chunker, Azure
name sanitizer, deterministic document ids, retrieval short-circuit,
dual-write ingestion pipeline, MongoDB knowledge-source/document service)
together with proofs and refutations of the specification claims.

Strings are modelled as `List Char`.  Python integer indices are `Int`
where the source can produce negative values (the chunker's window
`start`), with Python's slice/`rfind` index normalisation made explicit.
-/

/-! ## Python string primitives -/

/-- Python whitespace test for the ASCII range, as used by `str.strip()`. -/
def pyIsSpaceB (c : Char) : Bool :=
  c == ' ' || c == '\t' || c == '\n' || c == '\r' || c == '\x0b' || c == '\x0c'

/-- Python slice-index normalisation: a negative index counts from the end
of the string (clamped at 0), a nonnegative one is clamped at the length. -/
def pyNormIdx (n : Nat) (i : Int) : Nat :=
  if i < 0 then ((n : Int) + i).toNat else min i.toNat n

/-- `s[a:b]` on already-normalised `Nat` bounds. -/
def pySliceNat (s : List Char) (a b : Nat) : List Char :=
  (s.drop a).take (b - a)

/-- Python slice `s[a:b]` with `Int` bounds. -/
def pySlice (s : List Char) (a b : Int) : List Char :=
  pySliceNat s (pyNormIdx s.length a) (pyNormIdx s.length b)

/-- Greatest index `i` with `lo ≤ i < k` and `s[i] = ' '`, else `-1`
(searching downward from `k`). -/
def rfindSpaceFrom (s : List Char) (lo : Nat) : Nat → Int
  | 0 => -1
  | k + 1 => if lo ≤ k ∧ s.get? k = some ' ' then (k : Int) else rfindSpaceFrom s lo k

/-- Python `s.rfind(' ', a, b)`: the bounds are normalised like slice
indices, and the result is the greatest index of a space in `[a', b')`,
or `-1` when there is none. -/
def pyRfindSpace (s : List Char) (a b : Int) : Int :=
  rfindSpaceFrom s (pyNormIdx s.length a) (pyNormIdx s.length b)

/-- Remove trailing characters satisfying `p` (Python `rstrip`). -/
def dropTrailing (p : Char → Bool) (l : List Char) : List Char :=
  (l.reverse.dropWhile p).reverse

/-- Strip characters satisfying `p` from both ends. -/
def stripEnds (p : Char → Bool) (l : List Char) : List Char :=
  dropTrailing p (l.dropWhile p)

/-- Python `s.strip()` (whitespace from both ends). -/
def pyStrip (l : List Char) : List Char :=
  stripEnds pyIsSpaceB l

/-- Python `s.replace(old, new)` for single characters. -/
def pyReplaceChar (l : List Char) (old new : Char) : List Char :=
  l.map fun c => if c = old then new else c

/-- The character of a decimal digit (`'0'`–`'9'` for `d < 10`). -/
def digitCh (d : Nat) : Char := Char.ofNat (48 + d)

/-- Digit characters of `n`, most significant first; the fuel dominates
the number of divisions (`n < fuel` suffices). -/
def decReprCore : Nat → Nat → List Char
  | 0, _ => []
  | fuel + 1, n =>
    if n < 10 then [digitCh n]
    else decReprCore fuel (n / 10) ++ [digitCh (n % 10)]

/-- The decimal rendering of a natural number, as produced by Python's
`str(i)` / f-string interpolation. -/
def decRepr (n : Nat) : List Char := decReprCore (n + 1) n

/-! ## Chunker (`src/chunking.py`, `chunk_text`)

The `while` loop of `chunk_text` is modelled with explicit fuel: `none`
means the fuel ran out, so `chunk_text … fuel = some r` for some fuel
witnesses a terminating run of the Python loop.  The window `start` is an
`Int` because `start = end - overlap` can go negative in Python. -/

/-- The window's right edge (lines 20–25 of `src/chunking.py`): `end =
start + chunk_size`, pulled back to the last space strictly after `start`
when the edge falls before the end of the text. -/
def chunkEnd (text : List Char) (size : Nat) (start : Int) : Int :=
  let end0 : Int := start + size
  if end0 < (text.length : Int) then
    let lastSpace := pyRfindSpace text start end0
    if start < lastSpace then lastSpace else end0
  else end0

/-- One-to-one translation of the loop body of `chunk_text`
(lines 16–35 of `src/chunking.py`). -/
def chunkLoop (text : List Char) (size overlap : Nat) :
    Nat → Int → List (List Char) → Option (List (List Char))
  | 0, _, _ => none
  | fuel + 1, start, chunks =>
    if start < (text.length : Int) then
      let e : Int := chunkEnd text size start
      let chunk := pyStrip (pySlice text start e)
      let chunks' := if chunk.isEmpty then chunks else chunks ++ [chunk]
      let start' := e - overlap
      if (text.length : Int) ≤ start' then some chunks'
      else chunkLoop text size overlap fuel start' chunks'
    else some chunks

/-- `chunk_text(text, chunk_size, overlap)` from `src/chunking.py`.  If the
text fits in one chunk the whole (untrimmed) text is returned; otherwise
the windowing loop runs. -/
def chunk_text (text : List Char) (size overlap : Nat) (fuel : Nat) :
    Option (List (List Char)) :=
  if text.length ≤ size then some [text]
  else chunkLoop text size overlap fuel 0 []

/-! ## C1: divergence of the chunker

On `"ab cdefgh"` with `chunk_size = 4`, `overlap = 2` the first window is
`[0, 4)`, its right edge is pulled back to the space at index 2, and the
next start is `2 - 2 = 0` again: the loop never advances. -/

/-- The text of the failing input for C1. -/
def exLoopText : List Char := "ab cdefgh".data

theorem exLoopText_step (fuel : Nat) (acc : List (List Char)) :
    chunkLoop exLoopText 4 2 (fuel + 1) 0 acc =
      chunkLoop exLoopText 4 2 fuel 0 (acc ++ [['a', 'b']]) := rfl

theorem exLoopText_loop_none (fuel : Nat) :
    ∀ acc, chunkLoop exLoopText 4 2 fuel 0 acc = none := by
  induction fuel with
  | zero => intro acc; rfl
  | succ n ih => intro acc; rw [exLoopText_step]; exact ih _

/-- C1: the claim that `chunk_text` terminates for every configuration with
`chunk_size > overlap ≥ 0` fails: on the text `"ab cdefgh"` with
`chunk_size = 4 > overlap = 2 ≥ 0` the window-advance loop makes no
progress (the right edge is pulled back to the space at index 2 and
`start` returns to `2 - 2 = 0`), so no amount of fuel makes the loop
return — the Python loop runs forever. -/
theorem chunk_text_diverges_on_pulled_back_window :
    ¬ ∃ (fuel : Nat) (chunks : List (List Char)),
        chunk_text exLoopText 4 2 fuel = some chunks := by
  rintro ⟨fuel, chunks, h⟩
  have hlen : ¬ exLoopText.length ≤ 4 := by decide
  rw [chunk_text, if_neg hlen, exLoopText_loop_none] at h
  exact Option.noConfusion h

/-! ## Azure name sanitizer (`src/clients.py`, `sanitize_azure_name`) -/

/-- The keep-set of the regex `[^a-z0-9-]`: lowercase ASCII letters
(codes 97–122), digits (48–57) and the dash (45). -/
def isAzureAllowed (c : Char) : Bool :=
  (97 ≤ c.toNat && c.toNat ≤ 122) || (48 ≤ c.toNat && c.toNat ≤ 57) || c.toNat == 45

/-- The dash test used by `strip('-')` / `rstrip('-')`. -/
def dashB (c : Char) : Bool := c == '-'

/-- `re.sub(r'-+', '-', s)`: collapse every run of dashes to one dash. -/
def collapseDashes : List Char → List Char
  | [] => []
  | [c] => [c]
  | c1 :: c2 :: rest =>
    if c1 = '-' ∧ c2 = '-' then collapseDashes (c2 :: rest)
    else c1 :: collapseDashes (c2 :: rest)

/-- `sanitize_azure_name` from `src/clients.py`: lowercase, `'_'` and
`' '` to dashes, every other character outside `[a-z0-9-]` to a dash,
collapse dash runs, strip dashes at both ends, and truncate to 128
characters removing any trailing dashes the cut exposes.  (Python's
`lower()` is Unicode-aware; `Char.toLower` models its ASCII behaviour,
which is all the later stages can observe inside `[a-z0-9-]`.) -/
def sanitize_azure_name (name : List Char) : List Char :=
  let s :=
    stripEnds dashB (collapseDashes
      ((((name.map Char.toLower).map fun c => if c = '_' then '-' else c).map
          fun c => if c = ' ' then '-' else c).map
        fun c => if isAzureAllowed c then c else '-'))
  if 128 < s.length then dropTrailing dashB (s.take 128) else s

/-! ### Generic stripping lemmas -/

theorem dropWhile_eq_self_of_head (p : Char → Bool) (l : List Char)
    (h : ∀ c ∈ l.head?, p c = false) : l.dropWhile p = l := by
  cases l with
  | nil => rfl
  | cons a t => simp [List.dropWhile_cons, h a (by simp)]

theorem dropTrailing_eq_self (p : Char → Bool) (l : List Char)
    (h : ∀ c ∈ l.getLast?, p c = false) : dropTrailing p l = l := by
  unfold dropTrailing
  rw [dropWhile_eq_self_of_head, List.reverse_reverse]
  intro c hc
  rw [List.head?_reverse] at hc
  exact h c hc

theorem stripEnds_eq_self (p : Char → Bool) (l : List Char)
    (h1 : ∀ c ∈ l.head?, p c = false) (h2 : ∀ c ∈ l.getLast?, p c = false) :
    stripEnds p l = l := by
  unfold stripEnds
  rw [dropWhile_eq_self_of_head p l h1, dropTrailing_eq_self p l h2]

theorem exists_append_dropWhile (p : Char → Bool) (l : List Char) :
    ∃ t, l = t ++ l.dropWhile p ∧ ∀ c ∈ t, p c = true :=
  ⟨l.takeWhile p, (List.takeWhile_append_dropWhile p l).symm,
    fun _ hc => List.mem_takeWhile_imp hc⟩

theorem exists_dropTrailing_append (p : Char → Bool) (l : List Char) :
    ∃ u, l = dropTrailing p l ++ u ∧ ∀ c ∈ u, p c = true := by
  obtain ⟨t, ht, hall⟩ := exists_append_dropWhile p l.reverse
  refine ⟨t.reverse, ?_, fun c hc => hall c (List.mem_reverse.mp hc)⟩
  have h2 := congrArg List.reverse ht
  simpa [dropTrailing, List.reverse_append] using h2

theorem stripEnds_decomp (p : Char → Bool) (l : List Char) :
    ∃ t u, l = t ++ stripEnds p l ++ u ∧ (∀ c ∈ t, p c = true) ∧ ∀ c ∈ u, p c = true := by
  obtain ⟨t, ht, hta⟩ := exists_append_dropWhile p l
  obtain ⟨u, hu, hua⟩ := exists_dropTrailing_append p (l.dropWhile p)
  refine ⟨t, u, ?_, hta, hua⟩
  rw [List.append_assoc]
  rw [stripEnds]
  rw [← hu]
  exact ht

theorem head_not_of_dropWhile (p : Char → Bool) (l : List Char) (c : Char)
    (h : (l.dropWhile p).head? = some c) : p c = false := by
  have h2 := List.head?_dropWhile_not p l
  rw [h] at h2
  simpa using h2

theorem stripEnds_head_not (p : Char → Bool) (l : List Char) (c : Char)
    (hc : (stripEnds p l).head? = some c) : p c = false := by
  obtain ⟨u, hu, _⟩ := exists_dropTrailing_append p (l.dropWhile p)
  have hu' : l.dropWhile p = stripEnds p l ++ u := hu
  apply head_not_of_dropWhile p l c
  rw [hu']
  cases hse : stripEnds p l with
  | nil => rw [hse] at hc; exact Option.noConfusion hc
  | cons a t =>
    rw [hse] at hc
    simpa using hc

theorem dropTrailing_reverse (p : Char → Bool) (l : List Char) :
    (dropTrailing p l).reverse = l.reverse.dropWhile p := by
  simp [dropTrailing]

theorem dropTrailing_getLast_not (p : Char → Bool) (l : List Char) (c : Char)
    (hc : (dropTrailing p l).getLast? = some c) : p c = false := by
  rw [← List.head?_reverse, dropTrailing_reverse] at hc
  exact head_not_of_dropWhile p l.reverse c hc

theorem stripEnds_getLast_not (p : Char → Bool) (l : List Char) (c : Char)
    (hc : (stripEnds p l).getLast? = some c) : p c = false :=
  dropTrailing_getLast_not p (l.dropWhile p) c hc

theorem dropTrailing_head_mem (p : Char → Bool) (l : List Char) (c : Char)
    (hc : (dropTrailing p l).head? = some c) : l.head? = some c := by
  obtain ⟨u, hu, _⟩ := exists_dropTrailing_append p l
  rw [hu]
  cases hdt : dropTrailing p l with
  | nil => rw [hdt] at hc; exact Option.noConfusion hc
  | cons a t => rw [hdt] at hc; simpa using hc

theorem dropTrailing_length_le (p : Char → Bool) (l : List Char) :
    (dropTrailing p l).length ≤ l.length := by
  rw [dropTrailing, List.length_reverse]
  calc (l.reverse.dropWhile p).length ≤ l.reverse.length :=
        List.Sublist.length_le (List.dropWhile_sublist p)
    _ = l.length := List.length_reverse l

theorem chain'_of_append_middle {R : Char → Char → Prop} {t m u : List Char}
    (h : List.Chain' R (t ++ m ++ u)) : List.Chain' R m :=
  (List.chain'_append.mp (List.chain'_append.mp h).1).2.1

theorem take_head? (l : List Char) (n : Nat) (hn : 0 < n) :
    (l.take n).head? = l.head? := by
  cases l with
  | nil => simp
  | cons a t =>
    cases n with
    | zero => omega
    | succ m => simp

/-! ### Collapse lemmas -/

/-- `l` has no two adjacent dashes. -/
def NoDoubleDash (l : List Char) : Prop :=
  List.Chain' (fun a b => ¬(a = '-' ∧ b = '-')) l

theorem collapseDashes_head : ∀ (c : Char) (l : List Char),
    (collapseDashes (c :: l)).head? = some c := by
  intro c l
  induction l generalizing c with
  | nil => rfl
  | cons d t ih =>
    by_cases h : c = '-' ∧ d = '-'
    · rw [collapseDashes, if_pos h, ih d, h.1, h.2]
    · rw [collapseDashes, if_neg h]
      rfl

theorem collapseDashes_chain : ∀ l : List Char, NoDoubleDash (collapseDashes l) := by
  intro l
  induction l with
  | nil => simp [collapseDashes, NoDoubleDash]
  | cons c t ih =>
    cases t with
    | nil => simp [collapseDashes, NoDoubleDash]
    | cons d t' =>
      by_cases h : c = '-' ∧ d = '-'
      · rw [collapseDashes, if_pos h]
        exact ih
      · rw [NoDoubleDash] at ih ⊢
        rw [collapseDashes, if_neg h, List.chain'_cons']
        refine ⟨?_, ih⟩
        intro b hb
        rw [collapseDashes_head d t'] at hb
        cases hb
        exact h

theorem collapseDashes_subset : ∀ (l : List Char) (c : Char),
    c ∈ collapseDashes l → c ∈ l := by
  intro l
  induction l with
  | nil => intro c hc; exact absurd hc (by simp [collapseDashes])
  | cons a t ih =>
    cases t with
    | nil => intro c hc; exact hc
    | cons d t' =>
      intro c hc
      by_cases h : a = '-' ∧ d = '-'
      · rw [collapseDashes, if_pos h] at hc
        exact List.mem_cons_of_mem a (ih c hc)
      · rw [collapseDashes, if_neg h] at hc
        rcases List.mem_cons.mp hc with h1 | h1
        · exact h1 ▸ List.mem_cons_self a _
        · exact List.mem_cons_of_mem a (ih c h1)

theorem collapseDashes_eq_self : ∀ l : List Char, NoDoubleDash l → collapseDashes l = l := by
  intro l
  induction l with
  | nil => intro _; rfl
  | cons a t ih =>
    cases t with
    | nil => intro _; rfl
    | cons d t' =>
      intro h
      rw [NoDoubleDash, List.chain'_cons] at h
      rw [collapseDashes, if_neg h.1, ih h.2]

/-! ### Character facts -/

theorem map_fix {f : Char → Char} : ∀ l : List Char, (∀ c ∈ l, f c = c) → l.map f = l := by
  intro l h
  induction l with
  | nil => rfl
  | cons a t ih =>
    rw [List.map_cons, h a (List.mem_cons_self a t),
      ih fun c hc => h c (List.mem_cons_of_mem a hc)]

theorem toLower_fixed (c : Char) (h : isAzureAllowed c = true) : Char.toLower c = c := by
  simp only [isAzureAllowed, Bool.or_eq_true, Bool.and_eq_true, decide_eq_true_eq,
    beq_iff_eq] at h
  simp only [Char.toLower]
  split
  · next hc => omega
  · rfl

theorem allowed_not_special (c : Char) (h : isAzureAllowed c = true) :
    c ≠ '_' ∧ c ≠ ' ' := by
  constructor <;> rintro rfl <;> exact absurd h (by decide)

/-! ### The sanitized shape and idempotence (C4) -/

/-- The invariant satisfied by every output of `sanitize_azure_name`:
only characters of `[a-z0-9-]`, no two adjacent dashes, no leading or
trailing dash, and at most 128 characters. -/
def CleanAzureName (l : List Char) : Prop :=
  (∀ c ∈ l, isAzureAllowed c = true) ∧ NoDoubleDash l ∧
    (∀ c ∈ l.head?, c ≠ '-') ∧ (∀ c ∈ l.getLast?, c ≠ '-') ∧ l.length ≤ 128

theorem dashB_eq_false {c : Char} (h : dashB c = false) : c ≠ '-' := by
  simpa [dashB] using h

theorem sanitize_clean (x : List Char) : CleanAzureName (sanitize_azure_name x) := by
  simp only [sanitize_azure_name]
  set s4 := (((x.map Char.toLower).map fun c => if c = '_' then '-' else c).map
      fun c => if c = ' ' then '-' else c).map
    fun c => if isAzureAllowed c then c else '-' with hs4
  have h4 : ∀ c ∈ s4, isAzureAllowed c = true := by
    intro c hc
    rw [hs4, List.mem_map] at hc
    obtain ⟨a, _, ha⟩ := hc
    by_cases h : isAzureAllowed a
    · rw [if_pos h] at ha; exact ha ▸ h
    · rw [if_neg h] at ha; exact ha ▸ (by decide)
  set s5 := collapseDashes s4 with hs5
  set s6 := stripEnds dashB s5 with hs6
  have h5mem : ∀ c ∈ s5, isAzureAllowed c = true := fun c hc =>
    h4 c (collapseDashes_subset s4 c hc)
  have h6mem : ∀ c ∈ s6, isAzureAllowed c = true := by
    intro c hc
    obtain ⟨t, u, hdec, _, _⟩ := stripEnds_decomp dashB s5
    exact h5mem c (hdec ▸ (by simp [hc] : c ∈ t ++ stripEnds dashB s5 ++ u))
  have h6chain : NoDoubleDash s6 := by
    obtain ⟨t, u, hdec, _, _⟩ := stripEnds_decomp dashB s5
    have h5c : NoDoubleDash s5 := collapseDashes_chain s4
    rw [hs6]
    exact chain'_of_append_middle (hdec ▸ h5c)
  have h6head : ∀ c ∈ s6.head?, c ≠ '-' := fun c hc =>
    dashB_eq_false (stripEnds_head_not dashB s5 c hc)
  have h6last : ∀ c ∈ s6.getLast?, c ≠ '-' := fun c hc =>
    dashB_eq_false (stripEnds_getLast_not dashB s5 c hc)
  by_cases hlen : 128 < s6.length
  · rw [if_pos hlen]
    obtain ⟨u, hu, _⟩ := exists_dropTrailing_append dashB (s6.take 128)
    have htk : s6.take 128 ++ s6.drop 128 = s6 := List.take_append_drop 128 s6
    refine ⟨?_, ?_, ?_, ?_, ?_⟩
    · intro c hc
      apply h6mem
      rw [← htk]
      apply List.mem_append_left
      rw [hu]
      exact List.mem_append_left u hc
    · have hc6 : NoDoubleDash (s6.take 128 ++ s6.drop 128) := by rw [htk]; exact h6chain
      have hctk : NoDoubleDash (s6.take 128) := (List.chain'_append.mp hc6).1
      have hctk2 : NoDoubleDash (dropTrailing dashB (s6.take 128) ++ u) := by
        rw [← hu]; exact hctk
      exact (List.chain'_append.mp hctk2).1
    · intro c hc
      apply h6head
      have h1 : (s6.take 128).head? = some c := dropTrailing_head_mem _ _ c hc
      rw [take_head? s6 128 (by omega)] at h1
      exact h1
    · exact fun c hc => dashB_eq_false (dropTrailing_getLast_not dashB _ c hc)
    · calc (dropTrailing dashB (s6.take 128)).length
          ≤ (s6.take 128).length := dropTrailing_length_le dashB _
        _ ≤ 128 := by rw [List.length_take]; omega
  · rw [if_neg hlen]
    exact ⟨h6mem, h6chain, h6head, h6last, by omega⟩

theorem sanitize_fix (l : List Char) (h : CleanAzureName l) : sanitize_azure_name l = l := by
  obtain ⟨hmem, hchain, hhead, hlast, hlen⟩ := h
  have e1 : l.map Char.toLower = l := map_fix l fun c hc => toLower_fixed c (hmem c hc)
  have e2 : (l.map fun c => if c = '_' then '-' else c) = l :=
    map_fix l fun c hc => if_neg (allowed_not_special c (hmem c hc)).1
  have e3 : (l.map fun c => if c = ' ' then '-' else c) = l :=
    map_fix l fun c hc => if_neg (allowed_not_special c (hmem c hc)).2
  have e4 : (l.map fun c => if isAzureAllowed c then c else '-') = l :=
    map_fix l fun c hc => if_pos (hmem c hc)
  have e5 : collapseDashes l = l := collapseDashes_eq_self l hchain
  have e6 : stripEnds dashB l = l := by
    apply stripEnds_eq_self
    · intro c hc
      simpa [dashB] using hhead c hc
    · intro c hc
      simpa [dashB] using hlast c hc
  simp only [sanitize_azure_name, e1, e2, e3, e4, e5, e6]
  rw [if_neg (by omega)]

/-- C4: `sanitize_azure_name` is idempotent — sanitizing an already
sanitized name changes nothing. -/
theorem sanitize_azure_name_idempotent (x : List Char) :
    sanitize_azure_name (sanitize_azure_name x) = sanitize_azure_name x :=
  sanitize_fix (sanitize_azure_name x) (sanitize_clean x)

/-! ## Deterministic index-document ids
(`src/document_processor.py` line 165:
`f"{safe_org_id}_{filename.replace('.', '_')}_{i}"`). -/

/-- The id of the Azure Search document for chunk `i` of `filename`. -/
def makeDocId (safeOrgId filename : List Char) (i : Nat) : List Char :=
  safeOrgId ++ ['_'] ++ pyReplaceChar filename '.' '_' ++ ['_'] ++ decRepr i

theorem digitCh_toNat : ∀ d, d < 10 → (digitCh d).toNat = 48 + d := by decide

theorem digitCh_inj {a b : Nat} (ha : a < 10) (hb : b < 10)
    (h : digitCh a = digitCh b) : a = b := by
  have h2 := congrArg Char.toNat h
  rw [digitCh_toNat a ha, digitCh_toNat b hb] at h2
  omega

theorem map_digitCh_inj : ∀ l1 l2 : List Nat, (∀ d ∈ l1, d < 10) → (∀ d ∈ l2, d < 10) →
    l1.map digitCh = l2.map digitCh → l1 = l2 := by
  intro l1
  induction l1 with
  | nil =>
    intro l2 _ _ h
    cases l2 with
    | nil => rfl
    | cons b s => exact absurd h (by simp)
  | cons a t ih =>
    intro l2 h1 h2 h
    cases l2 with
    | nil => exact absurd h (by simp)
    | cons b s =>
      simp only [List.map_cons, List.cons.injEq] at h
      have hab : a = b :=
        digitCh_inj (h1 a (List.mem_cons_self a t)) (h2 b (List.mem_cons_self b s)) h.1
      rw [hab, ih s (fun d hd => h1 d (List.mem_cons_of_mem a hd))
        (fun d hd => h2 d (List.mem_cons_of_mem b hd)) h.2]

theorem decReprCore_eq_digits : ∀ fuel n, n < fuel → n ≠ 0 →
    decReprCore fuel n = ((Nat.digits 10 n).map digitCh).reverse := by
  intro fuel
  induction fuel with
  | zero => intro n h _; omega
  | succ f ih =>
    intro n hn hn0
    rw [decReprCore]
    by_cases h10 : n < 10
    · rw [if_pos h10]
      have hd : Nat.digits 10 n = [n % 10] := by
        rw [Nat.digits_def' (b := 10) (by norm_num) (Nat.pos_of_ne_zero hn0)]
        rw [Nat.div_eq_of_lt h10]
        simp
      rw [hd]
      simp [Nat.mod_eq_of_lt h10]
    · rw [if_neg h10]
      have hdiv0 : n / 10 ≠ 0 := by
        intro hcon
        have h2 := (Nat.div_eq_zero_iff (by norm_num)).mp hcon
        omega
      have hdivlt : n / 10 < f := by
        have h1 : n / 10 < n := Nat.div_lt_self (by omega) (by norm_num)
        omega
      rw [ih (n / 10) hdivlt hdiv0,
        Nat.digits_def' (b := 10) (by norm_num) (by omega : 0 < n),
        List.map_cons, List.reverse_cons]

/-- `decRepr` agrees with the base-10 digit expansion. -/
theorem decRepr_eq (n : Nat) :
    decRepr n = if n = 0 then ['0'] else ((Nat.digits 10 n).map digitCh).reverse := by
  by_cases h : n = 0
  · subst h; rfl
  · rw [if_neg h, decRepr, decReprCore_eq_digits (n + 1) n (by omega) h]

theorem decRepr_ne_zero_repr {n : Nat} (hn : n ≠ 0) : decRepr n ≠ ['0'] := by
  intro hcon
  rw [decRepr_eq, if_neg hn] at hcon
  have h1 : (Nat.digits 10 n).map digitCh = ['0'] := by
    have h2 := congrArg List.reverse hcon
    simpa using h2
  cases hd : Nat.digits 10 n with
  | nil => rw [hd] at h1; exact absurd h1 (by simp)
  | cons d ds =>
    rw [hd] at h1
    simp only [List.map_cons, List.cons.injEq] at h1
    obtain ⟨hdc, hds⟩ := h1
    have hds0 : ds = [] := List.map_eq_nil_iff.mp hds
    have hd10 : d < 10 :=
      Nat.digits_lt_base (by norm_num) (hd ▸ List.mem_cons_self d ds)
    have hd0 : d = 0 := by
      have h3 := congrArg Char.toNat hdc
      rw [digitCh_toNat d hd10] at h3
      have h4 : ('0' : Char).toNat = 48 := by decide
      omega
    have hform : Nat.digits 10 n = [0] := by rw [hd, hds0, hd0]
    have hzero : n = Nat.ofDigits 10 (Nat.digits 10 n) := (Nat.ofDigits_digits 10 n).symm
    rw [hform] at hzero
    simp [Nat.ofDigits] at hzero
    exact hn hzero

theorem decRepr_inj : ∀ m n : Nat, decRepr m = decRepr n → m = n := by
  intro m n h
  have d0 : decRepr 0 = ['0'] := rfl
  by_cases hm : m = 0 <;> by_cases hn : n = 0
  · omega
  · subst hm
    rw [d0] at h
    exact absurd h.symm (decRepr_ne_zero_repr hn)
  · subst hn
    rw [d0] at h
    exact absurd h (decRepr_ne_zero_repr hm)
  · rw [decRepr_eq, if_neg hm, decRepr_eq, if_neg hn] at h
    have h2 : (Nat.digits 10 m).map digitCh = (Nat.digits 10 n).map digitCh := by
      have h3 := congrArg List.reverse h
      simpa using h3
    have h3 : Nat.digits 10 m = Nat.digits 10 n :=
      map_digitCh_inj _ _ (fun d hd => Nat.digits_lt_base (by norm_num) hd)
        (fun d hd => Nat.digits_lt_base (by norm_num) hd) h2
    calc m = Nat.ofDigits 10 (Nat.digits 10 m) := (Nat.ofDigits_digits 10 m).symm
      _ = Nat.ofDigits 10 (Nat.digits 10 n) := by rw [h3]
      _ = n := Nat.ofDigits_digits 10 n

theorem append_sep_inj (sep : Char) : ∀ a1 a2 b1 b2 : List Char, sep ∉ a1 → sep ∉ a2 →
    a1 ++ sep :: b1 = a2 ++ sep :: b2 → a1 = a2 ∧ b1 = b2 := by
  intro a1
  induction a1 with
  | nil =>
    intro a2 b1 b2 _ h2 h
    cases a2 with
    | nil =>
      simp only [List.nil_append, List.cons.injEq] at h
      exact ⟨rfl, h.2⟩
    | cons x t =>
      simp only [List.nil_append, List.cons_append, List.cons.injEq] at h
      exact absurd (h.1 ▸ List.mem_cons_self x t) h2
  | cons x t ih =>
    intro a2 b1 b2 h1 h2 h
    cases a2 with
    | nil =>
      simp only [List.nil_append, List.cons_append, List.cons.injEq] at h
      exact absurd (h.1 ▸ List.mem_cons_self x t) h1
    | cons y s =>
      simp only [List.cons_append, List.cons.injEq] at h
      obtain ⟨hxy, hrest⟩ := h
      obtain ⟨hts, hb⟩ := ih s b1 b2 (fun hm => h1 (List.mem_cons_of_mem x hm))
        (fun hm => h2 (List.mem_cons_of_mem y hm)) hrest
      exact ⟨by rw [hxy, hts], hb⟩

/-- C5 (counterexample): two distinct (source name, chunk ordinal) pairs in
the same tenant produce the same index-document id — filenames `"a.b"` and
`"a_b"` collide after the `'.' → '_'` substitution. -/
theorem docid_collision_dot_underscore :
    ("a.b".data, 0) ≠ ("a_b".data, (0 : Nat)) ∧
      makeDocId (sanitize_azure_name "Org".data) "a.b".data 0 =
        makeDocId (sanitize_azure_name "Org".data) "a_b".data 0 := by
  constructor
  · decide
  · decide

/-- C5 (amended): the index-document id is a deterministic function of
(tenant, source filename, chunk ordinal), and it is injective in
(filename, ordinal) for a fixed tenant provided the filenames contain
neither `'.'` nor `'_'`; without that proviso distinct pairs can collide
(see the counterexample). -/
theorem docid_injective_without_dots_underscores
    (t f1 f2 : List Char) (i1 i2 : Nat)
    (h1d : '.' ∉ f1) (h1u : '_' ∉ f1) (h2d : '.' ∉ f2) (h2u : '_' ∉ f2)
    (h : makeDocId t f1 i1 = makeDocId t f2 i2) : f1 = f2 ∧ i1 = i2 := by
  have r1 : pyReplaceChar f1 '.' '_' = f1 :=
    map_fix f1 fun c hc => if_neg (fun e : c = '.' => h1d (e ▸ hc))
  have r2 : pyReplaceChar f2 '.' '_' = f2 :=
    map_fix f2 fun c hc => if_neg (fun e : c = '.' => h2d (e ▸ hc))
  simp only [makeDocId, r1, r2, List.append_assoc, List.singleton_append] at h
  have h2 := List.append_cancel_left h
  injection h2 with _ h3
  obtain ⟨hf, hd⟩ := append_sep_inj '_' f1 f2 (decRepr i1) (decRepr i2) h1u h2u h3
  exact ⟨hf, decRepr_inj i1 i2 hd⟩

theorem docid_injective_witness : "a".data = "a".data ∧ (0 : Nat) = 0 :=
  docid_injective_without_dots_underscores "org".data "a".data "a".data 0 0
    (by decide) (by decide) (by decide) (by decide) rfl

/-! ## C3: the short-text branch

`chunk_text` returns `[text]` unchanged when `len(text) <= chunk_size`
(line 13–14 of `src/chunking.py`); the text is not trimmed there. -/

/-- C3 (counterexample): for `" a "` (length 3 ≤ chunk_size) `chunk_text`
returns the single element `" a "` itself, which differs from the trimmed
input `"a"` — the claim that the element equals the trimmed input fails. -/
theorem chunk_text_short_not_trimmed :
    chunk_text " a ".data 800 100 0 = some [[' ', 'a', ' ']] ∧
      pyStrip [' ', 'a', ' '] = ['a'] ∧ ([' ', 'a', ' '] : List Char) ≠ ['a'] := by
  refine ⟨by decide, by decide, by decide⟩

/-- C3 (amended): for every text with `len(text) ≤ chunk_size`,
`chunk_text` returns exactly one element, and that element is the input
text as given (not trimmed). -/
theorem chunk_text_short_returns_whole (text : List Char) (size overlap fuel : Nat)
    (h : text.length ≤ size) : chunk_text text size overlap fuel = some [text] := by
  rw [chunk_text, if_pos h]

theorem chunk_text_short_returns_whole_witness :
    chunk_text "hi".data 5 1 0 = some ["hi".data] :=
  chunk_text_short_returns_whole "hi".data 5 1 0 (by decide)

/-! ## Retrieval pipeline (`src/search.py`)

`perform_vector_search` is a call to the external vector index; its result
list is passed in as a value.  The generation service
(`get_openai_client().chat.completions.create`) is modelled as an abstract
function `gen` from (system prompt, user prompt) to the completion text;
`search_documents` returns the answer together with the number of calls
made to the generation service. -/

/-- The apostrophe character (used inside the f-string messages). -/
def apos : Char := Char.ofNat 39

/-- One entry of the list returned by `perform_vector_search` — an Azure
Search result dict, of which `get_rag_response` reads `filepath` and
`content` (with defaults via `.get`). -/
structure SearchResult where
  content : Option (List Char)
  filepath : Option (List Char)
deriving DecidableEq

/-- `f"I couldn't find any relevant information in organization '{org_id}'
documents."` (line 95 of `src/search.py`). -/
def noInfoMessage (orgId : List Char) : List Char :=
  "I couldn".data ++ [apos] ++ "t find any relevant information in organization ".data
    ++ [apos] ++ orgId ++ [apos] ++ " documents.".data

/-- The fixed grounding system prompt of `get_rag_response` (the
surrounding triple-quoted whitespace layout is kept as written, minus the
leading/trailing indentation of the Python literal). -/
def ragSystemPrompt (orgId : List Char) : List Char :=
  "You are an intelligent assistant for organization ".data ++ [apos] ++ orgId ++ [apos]
    ++ ". \nYou answer user questions based on the context provided from the organization".data
    ++ [apos]
    ++ "s documents.\nIf the information is not in the context, say that you cannot answer based on the available documents.\nAlways be helpful and provide accurate information based on the organization".data
    ++ [apos] ++ "s data.".data

/-- `f"From {filepath}:\n{content}"` for one search result, with the
`.get` defaults of lines 58–59 of `src/search.py`. -/
def contextPart (r : SearchResult) : List Char :=
  "From ".data ++ r.filepath.getD "Unknown file".data ++ ":\n".data
    ++ r.content.getD "No content available".data

/-- `"\n\n".join(context_parts)`. -/
def joinContext : List SearchResult → List Char
  | [] => []
  | [r] => contextPart r
  | r :: rest => contextPart r ++ "\n\n".data ++ joinContext rest

/-- The user prompt of `get_rag_response` (line 64 of `src/search.py`). -/
def ragUserPrompt (orgId query : List Char) (results : List SearchResult) : List Char :=
  "Context from organization ".data ++ [apos] ++ orgId ++ [apos] ++ " documents:\n".data
    ++ joinContext results ++ "\n\nQuestion:\n".data ++ query

/-- `get_rag_response`: builds the grounding prompt and makes one call to
the generation service. -/
def get_rag_response (orgId query : List Char) (results : List SearchResult)
    (gen : List Char → List Char → List Char) : List Char :=
  gen (ragSystemPrompt orgId) (ragUserPrompt orgId query results)

/-- `search_documents` from `src/search.py`: the empty-result check
(`if not search_results`) short-circuits with the fixed message;
otherwise `get_rag_response` is invoked.  The second component counts the
calls made to the generation service. -/
def search_documents (orgId query : List Char) (searchResults : List SearchResult)
    (gen : List Char → List Char → List Char) : List Char × Nat :=
  if searchResults.isEmpty then (noInfoMessage orgId, 0)
  else (get_rag_response orgId query searchResults gen, 1)

/-- C6: when the similarity search returns zero results, `search_documents`
returns the fixed "couldn't find any relevant information" message and
makes no call to the generation service. -/
theorem search_documents_empty_short_circuit (orgId query : List Char)
    (searchResults : List SearchResult) (gen : List Char → List Char → List Char)
    (h : searchResults = []) :
    search_documents orgId query searchResults gen = (noInfoMessage orgId, 0) := by
  subst h
  rfl

theorem search_documents_empty_short_circuit_witness :
    search_documents "org1".data "anything".data [] (fun _ _ => "llm output".data)
      = (noInfoMessage "org1".data, 0) :=
  search_documents_empty_short_circuit "org1".data "anything".data []
    (fun _ _ => "llm output".data) rfl

/-! ## MongoDB knowledge-source / knowledge-document service
(`src/mongodb_client.py`, `src/mongodb_service.py`)

Mongo writes are modelled as pure record construction/update; the wall
clock (`datetime.utcnow()`) is an abstract `Nat` supplied per call, and a
Mongo exception is a `PyErr` value carrying `str(e)`. -/

/-- A raised Python exception (only its message is observable here). -/
structure PyErr where
  msg : List Char
deriving DecidableEq

/-- One entry of the `file_data` / `documents_data` dict list handed to the
knowledge service; `Option` fields model `dict.get` with its defaults
(the free-form `metadata` map is not modelled — no claim inspects it). -/
structure MongoDocIn where
  title : Option (List Char)
  content : Option (List Char)
  url : Option (List Char)
  pstatus : Option (List Char)
deriving DecidableEq

/-- A knowledge-source record, as built by `KnowledgeSource.create_document`
(the `configuration` snapshot is not modelled — no claim inspects it). -/
structure KnowledgeSourceRec where
  createdAt : Nat
  updatedAt : Nat
  organizationId : List Char
  name : List Char
  description : Option (List Char)
  sourceType : List Char
  status : List Char
  lastProcessedAt : Option Nat
  processStartedAt : Option Nat
  errorMessage : Option (List Char)
  retryCount : Nat
  documentsProcessed : Nat
  documentsFailed : Nat
deriving DecidableEq

/-- `KnowledgeSource.create_document` (lines 93–122 of
`src/mongodb_client.py`): a fresh source record, `status = "PENDING"` by
default, timestamps both set to `now`, counters zero. -/
def knowledgeSourceCreate (now : Nat) (orgId name : List Char)
    (description : Option (List Char)) (sourceType status : List Char) :
    KnowledgeSourceRec :=
  { createdAt := now, updatedAt := now, organizationId := orgId, name := name,
    description := description, sourceType := sourceType, status := status,
    lastProcessedAt := none, processStartedAt := none, errorMessage := none,
    retryCount := 0, documentsProcessed := 0, documentsFailed := 0 }

/-- `KnowledgeSourceService.update_knowledge_source_status` (lines 72–109 of
`src/mongodb_service.py`), applied to the matched record: sets `status` and
`updatedAt`, the optional error message and counters, and the
status-dependent timestamps (`PROCESSING` stamps `processStartedAt`;
`COMPLETED` stamps `lastProcessedAt` and clears the error message). -/
def update_knowledge_source_status (rec : KnowledgeSourceRec) (now : Nat)
    (status : List Char) (errorMessage : Option (List Char))
    (documentsProcessed documentsFailed : Option Nat) : KnowledgeSourceRec :=
  let r1 := { rec with status := status, updatedAt := now }
  let r2 := match errorMessage with
    | some m => { r1 with errorMessage := some m }
    | none => r1
  let r3 := match documentsProcessed with
    | some k => { r2 with documentsProcessed := k }
    | none => r2
  let r4 := match documentsFailed with
    | some k => { r3 with documentsFailed := k }
    | none => r3
  if status = "PROCESSING".data then { r4 with processStartedAt := some now }
  else if status = "COMPLETED".data then
    { r4 with lastProcessedAt := some now, errorMessage := none }
  else r4

/-- A knowledge-document record, as built by
`KnowledgeDocument.create_document` (metadata map not modelled). -/
structure KnowledgeDocumentRec where
  createdAt : Nat
  updatedAt : Nat
  knowledgeSourceId : List Char
  organizationId : List Char
  title : List Char
  content : List Char
  url : Option (List Char)
  status : List Char
  processedAt : Option Nat
  errorMessage : Option (List Char)
deriving DecidableEq

/-- `KnowledgeDocument.create_document` (lines 149–176 of
`src/mongodb_client.py`): one `now = datetime.utcnow()` stamps both
`createdAt` and `updatedAt`, and `processedAt` iff the status is
`COMPLETED`. -/
def knowledgeDocumentCreate (now : Nat) (ksId orgId title content : List Char)
    (url : Option (List Char)) (status : List Char) : KnowledgeDocumentRec :=
  { createdAt := now, updatedAt := now, knowledgeSourceId := ksId,
    organizationId := orgId, title := title, content := content, url := url,
    status := status,
    processedAt := if status = "COMPLETED".data then some now else none,
    errorMessage := none }

/-- `KnowledgeDocument.create_batch_documents` (lines 178–196 of
`src/mongodb_client.py`): one record per input dict, with the `.get`
defaults `"Untitled Document"`, `""` and `"COMPLETED"`.  Each
`create_document` call reads the wall clock, modelled by `clock` applied
to the position (the Python comprehension carries no index; the index here
only sequences the clock reads). -/
def create_batch_documents (clock : Nat → Nat) (ksId orgId : List Char) :
    List MongoDocIn → Nat → List KnowledgeDocumentRec
  | [], _ => []
  | d :: rest, i =>
    knowledgeDocumentCreate (clock i) ksId orgId
        (d.title.getD "Untitled Document".data) (d.content.getD []) d.url
        (d.pstatus.getD "COMPLETED".data)
      :: create_batch_documents clock ksId orgId rest (i + 1)

/-- `KnowledgeService.process_file_batch` (lines 333–389 of
`src/mongodb_service.py`): create the source (`PENDING`), move it to
`PROCESSING`, then batch-insert the documents.  `insertOutcome` is the
result of the `insert_many` call (`ok` carries the inserted ids); on
success the source becomes `COMPLETED` with the counts, on an exception it
becomes `FAILED` with `str(e)` and zero-processed/all-failed counts and the
exception is re-raised.  The returned pair is (final source record, the
Python return-or-raise). -/
def process_file_batch (orgId sourceName : List Char)
    (description : Option (List Char)) (fileData : List MongoDocIn)
    (srcId : List Char) (t0 t1 t2 : Nat)
    (insertOutcome : Except PyErr (List (List Char))) :
    KnowledgeSourceRec × Except PyErr (List Char × List (List Char)) :=
  let src0 := knowledgeSourceCreate t0 orgId sourceName description
    "DOCUMENT".data "PENDING".data
  let src1 := update_knowledge_source_status src0 t1 "PROCESSING".data none none none
  match insertOutcome with
  | .ok ids =>
    (update_knowledge_source_status src1 t2 "COMPLETED".data none
      (some ids.length) (some 0), .ok (srcId, ids))
  | .error e =>
    (update_knowledge_source_status src1 t2 "FAILED".data (some e.msg)
      (some 0) (some fileData.length), .error e)

/-- C8: if an exception occurs during knowledge-document insertion,
`process_file_batch` moves the knowledge source to `FAILED` carrying the
error message, sets `documentsProcessed = 0` and `documentsFailed` to the
full batch size, and re-raises the exception to its caller. -/
theorem process_file_batch_failure_marks_failed (orgId sourceName : List Char)
    (description : Option (List Char)) (fileData : List MongoDocIn)
    (srcId : List Char) (t0 t1 t2 : Nat) (e : PyErr)
    (insertOutcome : Except PyErr (List (List Char)))
    (h : insertOutcome = .error e) :
    (process_file_batch orgId sourceName description fileData srcId t0 t1 t2
        insertOutcome).1.status = "FAILED".data ∧
    (process_file_batch orgId sourceName description fileData srcId t0 t1 t2
        insertOutcome).1.errorMessage = some e.msg ∧
    (process_file_batch orgId sourceName description fileData srcId t0 t1 t2
        insertOutcome).1.documentsProcessed = 0 ∧
    (process_file_batch orgId sourceName description fileData srcId t0 t1 t2
        insertOutcome).1.documentsFailed = fileData.length ∧
    (process_file_batch orgId sourceName description fileData srcId t0 t1 t2
        insertOutcome).2 = .error e := by
  subst h
  refine ⟨?_, ?_, ?_, ?_, ?_⟩ <;> rfl

theorem process_file_batch_failure_witness :
    (process_file_batch "org".data "src".data none [] "id0".data 0 1 2
        (.error ⟨"boom".data⟩)).1.status = "FAILED".data ∧
    (process_file_batch "org".data "src".data none [] "id0".data 0 1 2
        (.error ⟨"boom".data⟩)).1.errorMessage = some "boom".data ∧
    (process_file_batch "org".data "src".data none [] "id0".data 0 1 2
        (.error ⟨"boom".data⟩)).1.documentsProcessed = 0 ∧
    (process_file_batch "org".data "src".data none [] "id0".data 0 1 2
        (.error ⟨"boom".data⟩)).1.documentsFailed = ([] : List MongoDocIn).length ∧
    (process_file_batch "org".data "src".data none [] "id0".data 0 1 2
        (.error ⟨"boom".data⟩)).2 = .error ⟨"boom".data⟩ :=
  process_file_batch_failure_marks_failed "org".data "src".data none []
    "id0".data 0 1 2 ⟨"boom".data⟩ (.error ⟨"boom".data⟩) rfl

/-! ## C10: documents of the batch path are born `COMPLETED` -/

theorem create_batch_documents_get (clock : Nat → Nat) (ksId orgId : List Char) :
    ∀ (data : List MongoDocIn) (i j : Nat) (d : MongoDocIn),
      data.get? j = some d →
      (create_batch_documents clock ksId orgId data i).get? j =
        some (knowledgeDocumentCreate (clock (i + j)) ksId orgId
          (d.title.getD "Untitled Document".data) (d.content.getD []) d.url
          (d.pstatus.getD "COMPLETED".data)) := by
  intro data
  induction data with
  | nil => intro i j d h; exact absurd h (by simp)
  | cons a rest ih =>
    intro i j d h
    cases j with
    | zero =>
      simp only [List.get?_cons_zero, Option.some.injEq] at h
      subst h
      rfl
    | succ k =>
      simp only [List.get?_cons_succ] at h
      have h2 := ih (i + 1) k d h
      rw [create_batch_documents]
      rw [List.get?_cons_succ]
      rw [h2]
      have : i + 1 + k = i + (k + 1) := by omega
      rw [this]

/-- C10: every knowledge document persisted by the batch ingestion path for
which no explicit status is supplied in the input dict is created already
in status `COMPLETED`, with its `processedAt` timestamp equal to its
creation timestamp; in particular it is never in a `PENDING` or
`PROCESSING` state. -/
theorem create_batch_documents_completed_at_creation (clock : Nat → Nat)
    (ksId orgId : List Char) (data : List MongoDocIn) (j : Nat) (d : MongoDocIn)
    (hd : data.get? j = some d) (hstat : d.pstatus = none) :
    ∃ rec, (create_batch_documents clock ksId orgId data 0).get? j = some rec ∧
      rec.status = "COMPLETED".data ∧ rec.processedAt = some rec.createdAt ∧
      rec.status ≠ "PENDING".data ∧ rec.status ≠ "PROCESSING".data := by
  refine ⟨_, create_batch_documents_get clock ksId orgId data 0 j d hd, ?_, ?_, ?_, ?_⟩
  · rw [hstat]; rfl
  · rw [hstat]; rfl
  · rw [hstat]
    show "COMPLETED".data ≠ "PENDING".data
    decide
  · rw [hstat]
    show "COMPLETED".data ≠ "PROCESSING".data
    decide

theorem create_batch_documents_completed_witness :
    ∃ rec, (create_batch_documents (fun t => t) "ks".data "org".data
        [⟨some "t".data, some "c".data, none, none⟩] 0).get? 0 = some rec ∧
      rec.status = "COMPLETED".data ∧ rec.processedAt = some rec.createdAt ∧
      rec.status ≠ "PENDING".data ∧ rec.status ≠ "PROCESSING".data :=
  create_batch_documents_completed_at_creation (fun t => t) "ks".data "org".data
    [⟨some "t".data, some "c".data, none, none⟩] 0
    ⟨some "t".data, some "c".data, none, none⟩ rfl rfl

/-! ## Ingestion pipeline (`src/document_processor.py`,
`process_and_upload_org_files`)

The external collaborators are abstracted: the directory listing, blob
upload and text extraction are collapsed into a list of `FileItem`s (name,
lowercased extension, directory flag, extracted text — `blob_name` equals
the filename because `upload_file_to_org_blob` uses `os.path.basename`);
the embedding service is a function `embed`; the search upsert and the
MongoDB `process_file_batch` call are outcome parameters.  The loop of
lines 140–194 may diverge through `chunk_text`, hence the `Option`
result. -/

/-- One file of the batch directory, after listing/extraction. -/
structure FileItem where
  filename : List Char
  fileExtension : List Char
  isDir : Bool
  content : List Char
deriving DecidableEq

/-- `SUPPORTED_EXTENSIONS` from `src/config.py`. -/
def supportedExtensionsList : List (List Char) :=
  [".txt".data, ".pdf".data, ".docx".data, ".csv".data, ".pptx".data,
    ".xlsx".data, ".xls".data]

/-- An Azure Search index document (lines 164–171 of
`src/document_processor.py`). -/
structure IndexDoc where
  docId : List Char
  content : List Char
  filepath : List Char
  organization_id : List Char
  blob_name : List Char
  embedding : List Int
deriving DecidableEq

/-- The per-chunk loop of lines 161–192: for every chunk whose trim is
non-empty, one Azure Search document and one MongoDB document dict
(`title = f"{filename} - Chunk {i+1}"`, no `status` key). -/
def perChunkDocs (safeOrgId orgId : List Char) (item : FileItem)
    (embed : List Char → List Int) : List (List Char) → Nat →
    List IndexDoc × List MongoDocIn
  | [], _ => ([], [])
  | chunk :: rest, i =>
    let (ds, ms) := perChunkDocs safeOrgId orgId item embed rest (i + 1)
    if (pyStrip chunk).isEmpty then (ds, ms)
    else
      ({ docId := makeDocId safeOrgId item.filename i, content := chunk,
         filepath := item.filename, organization_id := orgId,
         blob_name := item.filename, embedding := embed chunk } :: ds,
        { title := some (item.filename ++ " - Chunk ".data ++ decRepr (i + 1)),
          content := some chunk, url := none, pstatus := none } :: ms)

/-- The per-file loop of lines 140–194: skip directories and unsupported
extensions, skip files whose extracted text trims to empty, chunk the rest
and accumulate both document lists plus the processed-file count.  `none`
propagates a diverging `chunk_text` run. -/
def buildBatch (orgId : List Char) (size overlap fuel : Nat)
    (embed : List Char → List Int) :
    List FileItem → Option (List IndexDoc × List MongoDocIn × Nat)
  | [] => some ([], [], 0)
  | item :: rest =>
    if item.isDir || !(supportedExtensionsList.contains item.fileExtension) then
      buildBatch orgId size overlap fuel embed rest
    else if (pyStrip item.content).isEmpty then
      buildBatch orgId size overlap fuel embed rest
    else
      match chunk_text item.content size overlap fuel with
      | none => none
      | some chunks =>
        let (ds, ms) :=
          perChunkDocs (sanitize_azure_name orgId) orgId item embed chunks 0
        match buildBatch orgId size overlap fuel embed rest with
        | none => none
        | some (ds', ms', k) => some (ds ++ ds', ms ++ ms', k + 1)

/-- The observable print events of the batch-write phase
(lines 196–241); per-file progress prints are not modelled. -/
inductive LogEvent where
  | uploadedToSearch (n : Nat)
  | noSearchDocs
  | storedMeta (n : Nat)
  | mongoStoreError (msg : List Char)
  | mongoFailedAfterSearchOk
  | noMongoDocs
  | processingError (msg : List Char)
deriving DecidableEq

deriving instance DecidableEq for Except

/-- The observable outcome of one `process_and_upload_org_files` call:
`indexDocsWritten` holds the documents present in the organization's
search index after the call (the upsert argument when the upsert
succeeded, nothing otherwise) and `outcome` is the Python
return-or-raise — `.ok none` is the implicit `return None` (the function
body has no `return` statement), `.error` a propagated exception. -/
structure PipelineResult where
  indexDocsWritten : List IndexDoc
  searchUploadAttempted : Bool
  mongoAttempted : Bool
  logs : List LogEvent
  outcome : Except PyErr (Option (List Char × List (List Char)))
deriving DecidableEq

/-- `process_and_upload_org_files` (lines 114–245 of
`src/document_processor.py`).  After the per-file loop: if any search
documents were built, issue the upsert (`merge_or_upload_documents`; the
`AttributeError`/`TypeError` capability fallback chain is collapsed into
the single abstract upsert outcome `searchOutcome`) — on an exception the
outer handler prints and re-raises.  Then, if any MongoDB documents were
built, call `KnowledgeService.process_file_batch` (outcome
`mongoOutcome`) — on an exception the inner handler only prints
("Azure Search documents uploaded successfully, but MongoDB storage
failed") and the function falls through to its implicit `return None`. -/
def process_and_upload_org_files (orgId : List Char) (items : List FileItem)
    (size overlap fuel : Nat) (embed : List Char → List Int)
    (searchOutcome : Except PyErr Unit)
    (mongoOutcome : Except PyErr (List Char × List (List Char))) :
    Option PipelineResult :=
  match buildBatch orgId size overlap fuel embed items with
  | none => none
  | some (docs, mdocs, _processedFiles) =>
    if docs.isEmpty then
      -- no upsert attempted; the Mongo phase still runs
      if mdocs.isEmpty then
        some
          { indexDocsWritten := [], searchUploadAttempted := false,
            mongoAttempted := false,
            logs := [LogEvent.noSearchDocs, LogEvent.noMongoDocs],
            outcome := .ok none }
      else
        match mongoOutcome with
        | .ok (_sid, ids) =>
          some
            { indexDocsWritten := [], searchUploadAttempted := false,
              mongoAttempted := true,
              logs := [LogEvent.noSearchDocs, LogEvent.storedMeta ids.length],
              outcome := .ok none }
        | .error e =>
          some
            { indexDocsWritten := [], searchUploadAttempted := false,
              mongoAttempted := true,
              logs := [LogEvent.noSearchDocs, LogEvent.mongoStoreError e.msg,
                LogEvent.mongoFailedAfterSearchOk],
              outcome := .ok none }
    else
      match searchOutcome with
      | .error e =>
        -- outer `except`: print and `raise`
        some
          { indexDocsWritten := [], searchUploadAttempted := true,
            mongoAttempted := false, logs := [LogEvent.processingError e.msg],
            outcome := .error e }
      | .ok () =>
        if mdocs.isEmpty then
          some
            { indexDocsWritten := docs, searchUploadAttempted := true,
              mongoAttempted := false,
              logs := [LogEvent.uploadedToSearch docs.length, LogEvent.noMongoDocs],
              outcome := .ok none }
        else
          match mongoOutcome with
          | .ok (_sid, ids) =>
            some
              { indexDocsWritten := docs, searchUploadAttempted := true,
                mongoAttempted := true,
                logs := [LogEvent.uploadedToSearch docs.length,
                  LogEvent.storedMeta ids.length],
                outcome := .ok none }
          | .error e =>
            some
              { indexDocsWritten := docs, searchUploadAttempted := true,
                mongoAttempted := true,
                logs := [LogEvent.uploadedToSearch docs.length,
                  LogEvent.mongoStoreError e.msg, LogEvent.mongoFailedAfterSearchOk],
                outcome := .ok none }

/-! ## C7: a run with no chunks performs no writes -/

theorem buildBatch_all_skipped (orgId : List Char) (size overlap fuel : Nat)
    (embed : List Char → List Int) :
    ∀ items : List FileItem,
      (∀ it ∈ items, it.isDir = true ∨
        supportedExtensionsList.contains it.fileExtension = false ∨
        (pyStrip it.content).isEmpty = true) →
      buildBatch orgId size overlap fuel embed items = some ([], [], 0) := by
  intro items
  induction items with
  | nil => intro _; rfl
  | cons it rest ih =>
    intro h
    have hrest := ih fun x hx => h x (List.mem_cons_of_mem it hx)
    have hit := h it (List.mem_cons_self it rest)
    rw [buildBatch]
    rcases hit with h1 | h1 | h1
    · rw [if_pos (by rw [h1]; rfl)]
      exact hrest
    · rw [if_pos (by rw [h1]; simp)]
      exact hrest
    · by_cases h2 : it.isDir || !(supportedExtensionsList.contains it.fileExtension)
      · rw [if_pos h2]; exact hrest
      · rw [if_neg h2, if_pos h1]; exact hrest

/-- C7 (amended): when every item of the batch is skipped (a directory, an
unsupported extension, or text that trims to empty), the pipeline performs
no vector-index write and no metadata-store write and completes without
raising — but it returns `None` (Python's implicit return), not an empty
document-id list. -/
theorem pipeline_no_chunks_no_writes (orgId : List Char) (items : List FileItem)
    (size overlap fuel : Nat) (embed : List Char → List Int)
    (searchOutcome : Except PyErr Unit)
    (mongoOutcome : Except PyErr (List Char × List (List Char)))
    (h : ∀ it ∈ items, it.isDir = true ∨
      supportedExtensionsList.contains it.fileExtension = false ∨
      (pyStrip it.content).isEmpty = true) :
    process_and_upload_org_files orgId items size overlap fuel embed
        searchOutcome mongoOutcome =
      some
        { indexDocsWritten := [], searchUploadAttempted := false,
          mongoAttempted := false,
          logs := [LogEvent.noSearchDocs, LogEvent.noMongoDocs],
          outcome := .ok none } := by
  rw [process_and_upload_org_files.eq_def,
    buildBatch_all_skipped orgId size overlap fuel embed items h]
  rfl

theorem pipeline_no_chunks_no_writes_witness :
    process_and_upload_org_files "org".data
        [⟨"x.txt".data, ".txt".data, false, "   ".data⟩] 800 100 0 (fun _ => [])
        (.ok ()) (.ok ("sid".data, [])) =
      some
        { indexDocsWritten := [], searchUploadAttempted := false,
          mongoAttempted := false,
          logs := [LogEvent.noSearchDocs, LogEvent.noMongoDocs],
          outcome := .ok none } :=
  pipeline_no_chunks_no_writes "org".data
    [⟨"x.txt".data, ".txt".data, false, "   ".data⟩] 800 100 0 (fun _ => [])
    (.ok ()) (.ok ("sid".data, [])) (by decide)

/-- C7 (counterexample): even on an empty batch the pipeline's Python
return value is `None`, not an empty document-id list — the function body
of `process_and_upload_org_files` has no `return` statement at all, so the
claim's "returns an empty document-id list" is false. -/
theorem pipeline_returns_no_id_list :
    ¬ ∃ (r : PipelineResult) (src : List Char) (ids : List (List Char)),
        process_and_upload_org_files "org".data [] 800 100 0 (fun _ => [])
            (.ok ()) (.ok ("sid".data, [])) = some r ∧
          r.outcome = .ok (some (src, ids)) := by
  rintro ⟨r, src, ids, h1, h2⟩
  have h3 : process_and_upload_org_files "org".data [] 800 100 0 (fun _ => [])
      (.ok ()) (.ok ("sid".data, [])) =
    some
      { indexDocsWritten := [], searchUploadAttempted := false,
        mongoAttempted := false,
        logs := [LogEvent.noSearchDocs, LogEvent.noMongoDocs],
        outcome := .ok none } := rfl
  rw [h3] at h1
  cases h1
  exact Option.noConfusion (Except.ok.inj h2)

/-! ## C9: metadata failure after a successful index write -/

/-- C9 (amended): if the run built documents, the vector-index upsert
succeeded and the metadata write then failed, the documents written to the
vector index are left untouched (no rollback), the inconsistency is
printed/logged — but the failure is NOT surfaced to the caller: the inner
`except` swallows the exception and the call completes with the same
`return None` as a fully successful run. -/
theorem pipeline_metadata_failure_logged_not_raised (orgId : List Char)
    (items : List FileItem) (size overlap fuel : Nat)
    (embed : List Char → List Int) (e : PyErr)
    (docs : List IndexDoc) (mdocs : List MongoDocIn) (k : Nat)
    (hbuild : buildBatch orgId size overlap fuel embed items = some (docs, mdocs, k))
    (hdocs : docs ≠ []) (hmdocs : mdocs ≠ []) :
    process_and_upload_org_files orgId items size overlap fuel embed
        (.ok ()) (.error e) =
      some
        { indexDocsWritten := docs, searchUploadAttempted := true,
          mongoAttempted := true,
          logs := [LogEvent.uploadedToSearch docs.length,
            LogEvent.mongoStoreError e.msg, LogEvent.mongoFailedAfterSearchOk],
          outcome := .ok none } := by
  rw [process_and_upload_org_files, hbuild]
  simp only [List.isEmpty_iff]
  rw [if_neg hdocs, if_neg hmdocs]

/-- A one-file batch used to instantiate the C9 theorems. -/
def exBatchItem : FileItem := ⟨"f.txt".data, ".txt".data, false, "hello".data⟩

theorem pipeline_metadata_failure_witness :
    process_and_upload_org_files "org".data [exBatchItem] 800 100 0 (fun _ => [])
        (.ok ()) (.error ⟨"db down".data⟩) =
      some
        { indexDocsWritten :=
            [{ docId := makeDocId (sanitize_azure_name "org".data) "f.txt".data 0,
               content := "hello".data, filepath := "f.txt".data,
               organization_id := "org".data, blob_name := "f.txt".data,
               embedding := [] }],
          searchUploadAttempted := true, mongoAttempted := true,
          logs := [LogEvent.uploadedToSearch 1,
            LogEvent.mongoStoreError "db down".data,
            LogEvent.mongoFailedAfterSearchOk],
          outcome := .ok none } := by
  have h := pipeline_metadata_failure_logged_not_raised "org".data [exBatchItem]
    800 100 0 (fun _ => []) ⟨"db down".data⟩
    [{ docId := makeDocId (sanitize_azure_name "org".data) "f.txt".data 0,
       content := "hello".data, filepath := "f.txt".data,
       organization_id := "org".data, blob_name := "f.txt".data,
       embedding := [] }]
    [{ title := some ("f.txt".data ++ " - Chunk ".data ++ decRepr 1),
       content := some "hello".data, url := none, pstatus := none }] 1
    (by decide) (by decide) (by decide)
  rw [h]
  rfl

/-- C9 (counterexample): with one successfully chunked file, a successful
index upsert and a failing metadata write, the call's outcome is
`.ok none` — byte-for-byte the same caller-visible outcome as the fully
successful run.  The metadata failure is therefore *not* surfaced to the
caller as a distinct condition; it is masked as overall success (visible
only in the printed log). -/
theorem pipeline_metadata_failure_masked :
    (process_and_upload_org_files "org".data [exBatchItem] 800 100 0 (fun _ => [])
        (.ok ()) (.error ⟨"db down".data⟩)).map PipelineResult.outcome =
      some (.ok none) ∧
    (process_and_upload_org_files "org".data [exBatchItem] 800 100 0 (fun _ => [])
        (.ok ()) (.ok ("sid".data, ["d1".data]))).map PipelineResult.outcome =
      some (.ok none) := by
  refine ⟨by decide, by decide⟩

/-! ## C2: properties of the chunks of a terminating run -/

theorem rfindSpaceFrom_ge (s : List Char) (lo : Nat) :
    ∀ k, -1 ≤ rfindSpaceFrom s lo k := by
  intro k
  induction k with
  | zero => simp [rfindSpaceFrom]
  | succ m ih =>
    rw [rfindSpaceFrom]
    split
    · omega
    · exact ih

theorem rfindSpaceFrom_lt (s : List Char) (lo : Nat) :
    ∀ k, rfindSpaceFrom s lo k < (k : Int) := by
  intro k
  induction k with
  | zero => simp [rfindSpaceFrom]
  | succ m ih =>
    rw [rfindSpaceFrom]
    split
    · push_cast; omega
    · push_cast
      have := ih
      omega

theorem pyNormIdx_of_nonneg (n : Nat) (i : Int) (h : 0 ≤ i) :
    pyNormIdx n i = min i.toNat n := by
  rw [pyNormIdx, if_neg (by omega)]

theorem pyRfindSpace_ge (s : List Char) (a b : Int) : -1 ≤ pyRfindSpace s a b :=
  rfindSpaceFrom_ge s _ _

theorem pyRfindSpace_lt (s : List Char) (a b : Int) (hb : 0 ≤ b) :
    pyRfindSpace s a b < b := by
  rw [pyRfindSpace]
  have h1 := rfindSpaceFrom_lt s (pyNormIdx s.length a) (pyNormIdx s.length b)
  have h2 : pyNormIdx s.length b ≤ b.toNat := by
    rw [pyNormIdx_of_nonneg s.length b hb]
    omega
  omega

theorem chunkEnd_gt (text : List Char) (size : Nat) (start : Int) (hsize : 0 < size) :
    start < chunkEnd text size start := by
  simp only [chunkEnd]
  split
  · split
    · next h => exact h
    · omega
  · omega

theorem chunkEnd_ge (text : List Char) (size : Nat) (start : Int) : -1 ≤ chunkEnd text size start ∨
    chunkEnd text size start = start + size := by
  simp only [chunkEnd]
  split
  · split
    · next h =>
      left
      have := pyRfindSpace_ge text start (start + (size : Int))
      omega
    · right; rfl
  · right; rfl

theorem chunkEnd_le (text : List Char) (size overlap : Nat) (start : Int)
    (hstart : -1 - (overlap : Int) ≤ start) (hov : overlap < size) :
    chunkEnd text size start ≤ start + size := by
  simp only [chunkEnd]
  split
  · split
    · next h =>
      have hb : (0 : Int) ≤ start + (size : Int) := by omega
      have := pyRfindSpace_lt text start (start + (size : Int)) hb
      omega
    · omega
  · omega

theorem chunkEnd_ge_neg (text : List Char) (size overlap : Nat) (start : Int)
    (hstart : -1 - (overlap : Int) ≤ start) (hov : overlap < size) :
    -1 ≤ chunkEnd text size start := by
  rcases chunkEnd_ge text size start with h | h
  · exact h
  · omega

theorem pyStrip_length_le (l : List Char) : (pyStrip l).length ≤ l.length := by
  calc (pyStrip l).length ≤ (l.dropWhile pyIsSpaceB).length :=
        dropTrailing_length_le pyIsSpaceB _
    _ ≤ l.length := List.Sublist.length_le (List.dropWhile_sublist pyIsSpaceB)

theorem pyStrip_idem (l : List Char) : pyStrip (pyStrip l) = pyStrip l := by
  apply stripEnds_eq_self
  · exact fun c hc => stripEnds_head_not pyIsSpaceB l c hc
  · exact fun c hc => stripEnds_getLast_not pyIsSpaceB l c hc

theorem pySlice_length_le (s : List Char) (a b : Int) (hab : a < b) :
    (pySlice s a b).length ≤ (b - a).toNat := by
  simp only [pySlice, pySliceNat, List.length_take, List.length_drop, pyNormIdx]
  split_ifs <;> omega

theorem pySliceNat_get? (s : List Char) (a b j : Nat) (h : j < b - a) :
    (pySliceNat s a b).get? j = s.get? (a + j) := by
  rw [pySliceNat, List.get?_take h, List.get?_drop]

theorem pySliceNat_length (s : List Char) (a b : Nat) (hb : b ≤ s.length) :
    (pySliceNat s a b).length = b - a := by
  simp only [pySliceNat, List.length_take, List.length_drop]
  omega

theorem pySliceNat_sub (s : List Char) (a b d k : Nat) (h : d + k ≤ b - a) :
    ((pySliceNat s a b).drop d).take k = pySliceNat s (a + d) (a + d + k) := by
  simp only [pySliceNat]
  rw [List.drop_take, List.drop_drop, List.take_take]
  congr 1
  omega

/-- Position `i` of `text` lies inside some returned chunk: there is a span
`[lo, hi)` containing `i` whose substring is one of the chunks. -/
def coveredBy (text : List Char) (chunks : List (List Char)) (i : Nat) : Prop :=
  ∃ lo hi, lo ≤ i ∧ i < hi ∧ pySliceNat text lo hi ∈ chunks

theorem window_cover (text : List Char) (a b i : Nat) (ha : a ≤ i) (hb : i < b)
    (hbn : b ≤ text.length) (ci : Char) (hci : text.get? i = some ci)
    (hns : pyIsSpaceB ci = false) :
    ¬ (pyStrip (pySliceNat text a b)).isEmpty = true ∧
    ∃ lo hi, lo ≤ i ∧ i < hi ∧ pySliceNat text lo hi = pyStrip (pySliceNat text a b) := by
  obtain ⟨t, u, hdec0, hts, hus⟩ := stripEnds_decomp pyIsSpaceB (pySliceNat text a b)
  set m := pyStrip (pySliceNat text a b) with hm
  have hdec : pySliceNat text a b = t ++ m ++ u := hdec0
  clear hdec0
  have hwlen : (pySliceNat text a b).length = b - a := pySliceNat_length text a b hbn
  have hsum : t.length + m.length + u.length = b - a := by
    have h2 := congrArg List.length hdec
    simp only [List.length_append] at h2
    omega
  have hget : (pySliceNat text a b).get? (i - a) = some ci := by
    rw [pySliceNat_get? text a b (i - a) (by omega)]
    have h3 : a + (i - a) = i := by omega
    rw [h3]
    exact hci
  by_cases hc1 : i - a < t.length
  · exfalso
    rw [hdec, List.append_assoc, List.get?_append hc1] at hget
    have hmem := List.get?_mem hget
    simp [hts ci hmem] at hns
  · by_cases hc2 : i - a < t.length + m.length
    · constructor
      · rw [List.isEmpty_iff]
        intro h0
        rw [h0] at hc2
        simp at hc2
        omega
      · refine ⟨a + t.length, a + t.length + m.length, by omega, by omega, ?_⟩
        rw [← pySliceNat_sub text a b t.length m.length (by omega)]
        rw [hdec, List.append_assoc, List.drop_left, List.take_left]
    · exfalso
      rw [hdec] at hget
      have hlen2 : (t ++ m).length ≤ i - a := by
        simp only [List.length_append]
        omega
      rw [List.get?_append_right hlen2] at hget
      have hmem := List.get?_mem hget
      simp [hus ci hmem] at hns

theorem chunkLoop_mono (text : List Char) (size overlap : Nat) :
    ∀ (fuel : Nat) (start : Int) (acc chunks : List (List Char)),
      chunkLoop text size overlap fuel start acc = some chunks →
      ∃ rest, chunks = acc ++ rest := by
  intro fuel
  induction fuel with
  | zero => intro start acc chunks h; simp [chunkLoop] at h
  | succ f ih =>
    intro start acc chunks h
    simp only [chunkLoop] at h
    by_cases h1 : start < (text.length : Int)
    · rw [if_pos h1] at h
      have hacc : ∃ add, (if (pyStrip (pySlice text start
          (chunkEnd text size start))).isEmpty = true then acc
            else acc ++ [pyStrip (pySlice text start (chunkEnd text size start))]) =
          acc ++ add := by
        split
        · exact ⟨[], by simp⟩
        · exact ⟨[pyStrip (pySlice text start (chunkEnd text size start))], rfl⟩
      obtain ⟨add, hadd⟩ := hacc
      rw [hadd] at h
      split at h
      · cases h
        exact ⟨add, rfl⟩
      · obtain ⟨rest, hrest⟩ := ih _ _ _ h
        exact ⟨add ++ rest, by rw [hrest, List.append_assoc]⟩
    · rw [if_neg h1] at h
      cases h
      exact ⟨[], by simp⟩

/-- A properly formed chunk: bounded by the chunk size, non-empty, and
already stripped (so trimming it changes nothing). -/
def GoodChunk (size : Nat) (c : List Char) : Prop :=
  c.length ≤ size ∧ c ≠ [] ∧ pyStrip c = c

theorem chunkLoop_good (text : List Char) (size overlap : Nat) (hov : overlap < size) :
    ∀ (fuel : Nat) (start : Int) (acc chunks : List (List Char)),
      -1 - (overlap : Int) ≤ start →
      (∀ c ∈ acc, GoodChunk size c) →
      chunkLoop text size overlap fuel start acc = some chunks →
      ∀ c ∈ chunks, GoodChunk size c := by
  intro fuel
  induction fuel with
  | zero => intro start acc chunks _ _ h; simp [chunkLoop] at h
  | succ f ih =>
    intro start acc chunks hstart hacc h
    simp only [chunkLoop] at h
    by_cases h1 : start < (text.length : Int)
    · rw [if_pos h1] at h
      have hgood : ∀ c ∈ (if (pyStrip (pySlice text start
          (chunkEnd text size start))).isEmpty = true then acc
            else acc ++ [pyStrip (pySlice text start (chunkEnd text size start))]),
          GoodChunk size c := by
        split
        · exact hacc
        · next hne =>
          intro c hc
          rcases List.mem_append.mp hc with h2 | h2
          · exact hacc c h2
          · rw [List.mem_singleton] at h2
            subst h2
            refine ⟨?_, ?_, pyStrip_idem _⟩
            · have hlt : start < chunkEnd text size start :=
                chunkEnd_gt text size start (by omega)
              have hle : chunkEnd text size start ≤ start + size :=
                chunkEnd_le text size overlap start hstart hov
              calc (pyStrip (pySlice text start (chunkEnd text size start))).length
                  ≤ (pySlice text start (chunkEnd text size start)).length :=
                    pyStrip_length_le _
                _ ≤ (chunkEnd text size start - start).toNat :=
                    pySlice_length_le text start (chunkEnd text size start) hlt
                _ ≤ size := by omega
            · intro h0
              exact hne (List.isEmpty_iff.mpr h0)
      split at h
      · cases h
        exact hgood
      · have hstart2 : -1 - (overlap : Int) ≤ chunkEnd text size start - overlap := by
          have := chunkEnd_ge_neg text size overlap start hstart hov
          omega
        exact ih _ _ _ hstart2 hgood h
    · rw [if_neg h1] at h
      cases h
      exact hacc

theorem chunkLoop_cover (text : List Char) (size : Nat) (hsize : 0 < size) :
    ∀ (fuel : Nat) (start : Int) (acc chunks : List (List Char)),
      0 ≤ start →
      chunkLoop text size 0 fuel start acc = some chunks →
      ∀ i : Nat, start ≤ (i : Int) → i < text.length →
        ∀ ci, text.get? i = some ci → pyIsSpaceB ci = false →
        coveredBy text chunks i := by
  intro fuel
  induction fuel with
  | zero => intro start acc chunks _ h; simp [chunkLoop] at h
  | succ f ih =>
    intro start acc chunks hstart h i hi1 hi2 ci hci hns
    simp only [chunkLoop, Nat.cast_zero, sub_zero] at h
    by_cases h1 : start < (text.length : Int)
    case neg =>
      exfalso
      omega
    case pos =>
      rw [if_pos h1] at h
      have hE := chunkEnd_gt text size start hsize
      have hE0 : 0 ≤ chunkEnd text size start := by omega
      have ha : pyNormIdx text.length start = start.toNat := by
        rw [pyNormIdx_of_nonneg text.length start hstart]
        omega
      have hslice : pySlice text start (chunkEnd text size start) =
          pySliceNat text start.toNat
            (pyNormIdx text.length (chunkEnd text size start)) := by
        rw [pySlice, ha]
      by_cases hie : (i : Int) < chunkEnd text size start
      · have hblt : i < pyNormIdx text.length (chunkEnd text size start) := by
          rw [pyNormIdx_of_nonneg _ _ hE0]
          omega
        have hble : pyNormIdx text.length (chunkEnd text size start) ≤ text.length := by
          rw [pyNormIdx_of_nonneg _ _ hE0]
          omega
        have halei : start.toNat ≤ i := by omega
        obtain ⟨hne, lo, hi', hlo, hhi, heq⟩ := window_cover text start.toNat
          (pyNormIdx text.length (chunkEnd text size start)) i halei hblt hble ci hci hns
        have hne2 : ¬ ((pyStrip (pySlice text start
            (chunkEnd text size start))).isEmpty = true) := by
          rw [hslice]
          exact hne
        rw [if_neg hne2] at h
        have hmem : pySliceNat text lo hi' ∈ chunks := by
          split at h
          · cases h
            rw [heq, ← hslice]
            simp
          · obtain ⟨rest, hrest⟩ := chunkLoop_mono text size 0 f _ _ _ h
            rw [hrest, heq, ← hslice]
            simp
        exact ⟨lo, hi', hlo, hhi, hmem⟩
      · split at h
        · next hret =>
          exfalso
          omega
        · exact ih (chunkEnd text size start) _ chunks hE0 h i (by omega) hi2 ci hci hns

/-- C2 (amended): for a terminating run of `chunk_text` on a text longer
than `chunk_size` (with `chunk_size > overlap ≥ 0`), every returned chunk
has length ≤ `chunk_size`, is non-empty and already trimmed; and when
`overlap = 0` every position of the text holding a non-whitespace
character lies inside at least one returned chunk.  (Whitespace positions
can be dropped — see the counterexample — and with `overlap > 0` the
pulled-back window can drive the next `start` negative, skipping even
non-space positions.) -/
theorem chunk_text_chunks_bounded_and_nonspace_cover
    (text : List Char) (size overlap fuel : Nat) (chunks : List (List Char))
    (hov : overlap < size) (hlen : size < text.length)
    (hrun : chunk_text text size overlap fuel = some chunks) :
    (∀ c ∈ chunks, c.length ≤ size ∧ c ≠ [] ∧ pyStrip c = c) ∧
    (overlap = 0 → ∀ i, i < text.length → ∀ ci, text.get? i = some ci →
      pyIsSpaceB ci = false → coveredBy text chunks i) := by
  rw [chunk_text, if_neg (by omega)] at hrun
  constructor
  · intro c hc
    exact chunkLoop_good text size overlap hov fuel 0 [] chunks (by omega)
      (by simp) hrun c hc
  · intro hov0 i hi ci hci hns
    subst hov0
    exact chunkLoop_cover text size (by omega) fuel 0 [] chunks (by omega) hrun i
      (by omega) hi ci hci hns

/-- The text `"a"`, ten spaces, `"b"` used to refute full coverage. -/
def exGapText : List Char := "a          b".data

/-- C2 (counterexample): chunking `"a" + 10 spaces + "b"` with
`chunk_size = 5 > overlap = 0` terminates with chunks `["a", "b"]`, and
position 1 of the text (a space) appears in no returned chunk: the
whitespace-only middle window is dropped after trimming, so coverage of
every character position fails. -/
theorem chunk_text_drops_whitespace_gap :
    chunk_text exGapText 5 0 20 = some [['a'], ['b']] ∧
      ¬ coveredBy exGapText [['a'], ['b']] 1 := by
  refine ⟨by decide, ?_⟩
  rintro ⟨lo, hi, hlo, hhi, hmem⟩
  have hget : (pySliceNat exGapText lo hi).get? (1 - lo) =
      exGapText.get? (lo + (1 - lo)) :=
    pySliceNat_get? exGapText lo hi (1 - lo) (by omega)
  have h1 : lo + (1 - lo) = 1 := by omega
  rw [h1] at hget
  have hsp : exGapText.get? 1 = some ' ' := by decide
  rw [hsp] at hget
  have hmemsp : ' ' ∈ pySliceNat exGapText lo hi := List.get?_mem hget
  have h2 : pySliceNat exGapText lo hi = ['a'] ∨ pySliceNat exGapText lo hi = ['b'] := by
    simpa using hmem
  rcases h2 with h2 | h2 <;> rw [h2] at hmemsp <;> simp at hmemsp

theorem chunk_text_chunks_bounded_cover_witness :
    (∀ c ∈ [['a', 'b'], ['c', 'd']], c.length ≤ 3 ∧ c ≠ [] ∧ pyStrip c = c) ∧
    (0 = 0 → ∀ i, i < ("ab cd".data).length → ∀ ci, ("ab cd".data).get? i = some ci →
      pyIsSpaceB ci = false → coveredBy "ab cd".data [['a', 'b'], ['c', 'd']] i) :=
  chunk_text_chunks_bounded_and_nonspace_cover "ab cd".data 3 0 10
    [['a', 'b'], ['c', 'd']] (by decide) (by decide) (by decide)
